import Mathlib

/-!
Evaluation cache and evaluation state of the workflow controller.

A shallow embedding of `pkg/controller/evaluation.go`.

* Go pointers `*EvalState` are addresses into an explicit heap (`Heap`), so that object
  identity ("the same state") is equality of addresses.
* A Go `map[string]*EvalState` is an association list with unique keys.
* The buffered channel `evalLock` is a `Chan` (capacity and number of buffered elements) with
  the non-blocking send of `select { case ch <- v: default: }` and a non-blocking receive.
* The `sync.RWMutex` fields make each method body one atomic step; an atomic step is one
  function application here, and concurrency is interleaving of such steps.
* The opentracing span is an external object; it is embedded as the record of the calls made
  on it (`SetTag`, `LogKV`, `LogFields`, `Finish`).
* A Go run-time panic is `none`.
-/

namespace Controller

/-! ## Tracing interface -/

/-- A caller-supplied `opentracing.SpanContext` that is not `nil`: its baggage items. The
interface value that the code receives may be `nil`: it is an `Option SpanContext`, with
`none` for `nil`. -/
structure SpanContext where
  baggage : List (String × String)
deriving DecidableEq, Repr

/-- A tag value passed to `SetTag`: the code passes strings and one boolean. -/
inductive TagValue where
  | str (s : String)
  | bool (b : Bool)
deriving DecidableEq, Repr

/-- An `opentracing.Span`, as the record of what was called on it: the operation name and the
followed context given at start, the `SetTag` calls in order, the `LogKV`/`LogFields` calls in
order, and the number of `Finish` calls. -/
structure Span where
  operationName : String
  followsFrom : SpanContext
  tags : List (String × TagValue)
  logs : List (List (String × String))
  finishCalls : Nat
deriving DecidableEq, Repr

/-- `opentracing.StartSpan(name, opentracing.FollowsFrom(ctx))`. -/
def StartSpan (name : String) (ctx : SpanContext) : Span :=
  { operationName := name, followsFrom := ctx, tags := [], logs := [], finishCalls := 0 }

/-- `span.SetTag(key, value)`. -/
def Span.SetTag (sp : Span) (key : String) (value : TagValue) : Span :=
  { sp with tags := sp.tags ++ [(key, value)] }

/-- `span.LogKV(key, value)`. -/
def Span.LogKV (sp : Span) (key value : String) : Span :=
  { sp with logs := sp.logs ++ [[(key, value)]] }

/-- `span.LogFields(fields...)`. -/
def Span.LogFields (sp : Span) (fields : List (String × String)) : Span :=
  { sp with logs := sp.logs ++ [fields] }

/-- `span.Finish()`. -/
def Span.Finish (sp : Span) : Span :=
  { sp with finishCalls := sp.finishCalls + 1 }

/-- `span.Context()`: the context of the span, which carries the baggage of the context it
follows. -/
def Span.Context (sp : Span) : SpanContext := sp.followsFrom

/-- The value of the last `SetTag` call for `key`, if any. -/
def Span.tag (sp : Span) (key : String) : Option TagValue :=
  (sp.tags.reverse.find? (fun kv => kv.1 == key)).map (fun kv => kv.2)

/-- All values that `SetTag` was called with for `key`, in call order. -/
def Span.tagCalls (sp : Span) (key : String) : List TagValue :=
  (sp.tags.filter (fun kv => kv.1 == key)).map (fun kv => kv.2)

/-- The constant `ext.Component` of opentracing-go. -/
def ext.Component : String := "component"

/-! ## Channels of `struct{}` -/

/-- A Go channel of `struct{}`: its capacity and the number of buffered elements. -/
structure Chan where
  cap : Nat
  len : Nat
deriving DecidableEq, Repr

/-- `make(chan struct{}, cap)`. -/
def Chan.make (cap : Nat) : Chan := { cap := cap, len := 0 }

/-- The non-blocking send `select { case ch <- struct{}{}: default: }`: the channel afterwards
and whether the send case was taken. -/
def Chan.trySend (ch : Chan) : Chan × Bool :=
  if ch.len < ch.cap then ({ ch with len := ch.len + 1 }, true) else (ch, false)

/-- A receive `<-ch` that is ready: it takes one buffered element; when the buffer is empty
the receive cannot proceed (`false`) and the channel is unchanged. -/
def Chan.tryRecv (ch : Chan) : Chan × Bool :=
  if 0 < ch.len then ({ ch with len := ch.len - 1 }, true) else (ch, false)

/-! ## Evaluation records and the evaluation log -/

/-- `EvalRecord`. `Timestamp` is a `time.Time` (an instant, zero value `0`), `Action` the
value of the `Action` interface (declared outside the file; `none` is `nil`), `Error` the
`error` (`none` is `nil`). -/
structure EvalRecord where
  Timestamp : Nat
  Cause : String
  Action : Option String
  Error : Option String
  RulePath : List String
deriving DecidableEq, Repr

/-- The zero value `EvalRecord{}`. -/
def EvalRecord.zero : EvalRecord :=
  { Timestamp := 0, Cause := "", Action := none, Error := none, RulePath := [] }

/-- `NewEvalRecord()`, with the reading of the clock `time.Now()` as argument. -/
def NewEvalRecord (now : Nat) : EvalRecord :=
  { EvalRecord.zero with Timestamp := now }

/-- `type EvalLog []EvalRecord`. -/
abbrev EvalLog := List EvalRecord

/-- The Go index expression `e[i]` on a slice, for an `int` index: a run-time panic (`none`)
when `i` is negative or not below `len(e)`. -/
def EvalLog.index (e : EvalLog) (i : Int) : Option EvalRecord :=
  if i < 0 then none else e.get? i.toNat

/-- `EvalLog.Count`. -/
def EvalLog.Count (e : EvalLog) : Int := (e.length : Int)

/-- `EvalLog.Last`. -/
def EvalLog.Last (e : EvalLog) : Option (EvalRecord × Bool) :=
  if e.Count = 0 then some (EvalRecord.zero, false)
  else (e.index ((e.length : Int) - 1)).map (fun r => (r, true))

/-- `EvalLog.First`. -/
def EvalLog.First (e : EvalLog) : Option (EvalRecord × Bool) :=
  if e.Count = 0 then some (EvalRecord.zero, false)
  else (e.index 0).map (fun r => (r, true))

/-- `EvalLog.Record`: `*e = append(*e, record)`. -/
def EvalLog.Record (e : EvalLog) (record : EvalRecord) : EvalLog := e ++ [record]

/-! ## Evaluation state -/

/-- `EvalState`. The field `dataLock` is a mutex and carries no data. -/
structure EvalState where
  id : String
  log : EvalLog
  evalLock : Chan
  span : Span
  finished : Bool
deriving DecidableEq, Repr

/-- `EvalState.Free`: a non-blocking send on `evalLock`. -/
def EvalState.Free (e : EvalState) : EvalState :=
  { e with evalLock := e.evalLock.trySend.1 }

/-- The lines that `NewEvalState` prints while visiting the baggage items of the context. -/
def NewEvalState.printed (spanCtx : SpanContext) : List String :=
  spanCtx.baggage.map (fun kv => ">>>  " ++ kv.1 ++ "  =  " ++ kv.2)

/-- Lines 105 to 114 of `NewEvalState`: the state that it builds and returns once the baggage
items of the context `spanCtx`, which is then not `nil`, have been visited. -/
def NewEvalState.make (id : String) (spanCtx : SpanContext) : EvalState :=
  let e : EvalState :=
    { log := [],
      id := id,
      evalLock := Chan.make 1,
      span := StartSpan "EvalState" spanCtx,
      finished := false }
  let e := { e with span := e.span.SetTag ext.Component (TagValue.str "controller.workflow") }
  let e := { e with span := e.span.SetTag "workflow.id" (TagValue.str id) }
  e.Free

/-- `NewEvalState`. The first statement calls `spanCtx.ForeachBaggageItem`: on a `nil`
context this is a call through a nil interface, a run-time panic (`none`), and no state is
made. -/
def NewEvalState (id : String) (spanCtx : Option SpanContext) : Option EvalState :=
  match spanCtx with
  | none => none
  | some ctx => some (NewEvalState.make id ctx)

/-- `EvalState.Span`. -/
def EvalState.Span (e : EvalState) : SpanContext := e.span.Context

/-- `EvalState.IsFinished`. -/
def EvalState.IsFinished (e : EvalState) : Bool := e.finished

/-- `strings.Join(msg, " ")`. -/
def strings.Join (elems : List String) (sep : String) : String := sep.intercalate elems

/-- `EvalState.Finish`. -/
def EvalState.Finish (e : EvalState) (success : Bool) (msg : List String) : EvalState :=
  if e.finished then e
  else
    let sp := e.span.SetTag "success" (TagValue.bool success)
    let sp := if msg.length > 0 then sp.LogKV "reason" (strings.Join msg " ") else sp
    let sp := sp.Finish
    { e with span := sp, finished := true }

/-- `EvalState.Log`. -/
def EvalState.Log (e : EvalState) (fields : List (String × String)) : EvalState :=
  { e with span := e.span.LogFields fields }

/-- `EvalState.Close`: the state afterwards and the returned error (`none` is `nil`). -/
def EvalState.Close (e : EvalState) : EvalState × Option String :=
  (e.Finish false ["controller closed"], none)

/-- `EvalState.Lock`: the lock channel itself. -/
def EvalState.Lock (e : EvalState) : Chan := e.evalLock

/-- The consumer side `<-es.Lock()`, when it can proceed: the state afterwards and whether the
element was received. -/
def EvalState.recvLock (e : EvalState) : EvalState × Bool :=
  ({ e with evalLock := e.Lock.tryRecv.1 }, e.Lock.tryRecv.2)

/-- `EvalState.ID`. -/
def EvalState.ID (e : EvalState) : String := e.id

/-- `EvalState.Count`. -/
def EvalState.Count (e : EvalState) : Int := (e.log.length : Int)

/-- `EvalState.Get`: `none` is the run-time panic of the index expression. -/
def EvalState.Get (e : EvalState) (i : Int) : Option (EvalRecord × Bool) :=
  if i ≥ (e.log.length : Int) then some (EvalRecord.zero, false)
  else (e.log.index i).map (fun r => (r, true))

/-- `EvalState.Last`. -/
def EvalState.Last (e : EvalState) : Option (EvalRecord × Bool) := e.log.Last

/-- `EvalState.First`. -/
def EvalState.First (e : EvalState) : Option (EvalRecord × Bool) := e.log.First

/-- `EvalState.Logs`: a copy of the log. -/
def EvalState.Logs (e : EvalState) : EvalLog :=
  let logs : EvalLog := List.replicate e.log.length EvalRecord.zero
  e.log.take logs.length ++ logs.drop e.log.length

/-- `EvalState.Record`. -/
def EvalState.Record (e : EvalState) (record : EvalRecord) : EvalState :=
  { e with log := e.log.Record record }

/-- The operations of one `EvalState` that a caller can invoke. `read` stands for the
accessors `IsFinished`, `Span`, `ID`, `Count`, `Get`, `Last`, `First`, `Logs` and `Lock`, none
of which writes a field. -/
inductive StateOp where
  | finish (success : Bool) (msg : List String)
  | close
  | record (r : EvalRecord)
  | free
  | recvLock
  | log (fields : List (String × String))
  | read
deriving DecidableEq, Repr

/-- The state after one operation. -/
def EvalState.apply (e : EvalState) : StateOp → EvalState
  | StateOp.finish success msg => e.Finish success msg
  | StateOp.close => e.Close.1
  | StateOp.record r => e.Record r
  | StateOp.free => e.Free
  | StateOp.recvLock => e.recvLock.1
  | StateOp.log fields => e.Log fields
  | StateOp.read => e

/-- The state after a sequence of operations, in order. -/
def EvalState.run (e : EvalState) (ops : List StateOp) : EvalState :=
  ops.foldl EvalState.apply e

/-- The records appended by a sequence of operations, in call order. -/
def StateOp.records : List StateOp → List EvalRecord
  | [] => []
  | StateOp.record r :: ops => r :: StateOp.records ops
  | _ :: ops => StateOp.records ops

/-- The states that exist: made by `NewEvalState` and then operated on. -/
inductive EvalState.Reachable : EvalState → Prop where
  | new (id : String) (spanCtx : Option SpanContext) (e : EvalState) :
      NewEvalState id spanCtx = some e → EvalState.Reachable e
  | step {e : EvalState} (op : StateOp) :
      EvalState.Reachable e → EvalState.Reachable (e.apply op)

/-- What holds of every state that exists: the lock channel has capacity one and at most one
buffered element, and the span is finished once if the state is finished and not at all
otherwise, with no `success` tag before that. -/
def EvalState.Inv (e : EvalState) : Prop :=
  e.evalLock.cap = 1 ∧ e.evalLock.len ≤ 1 ∧
  (e.finished = true → e.span.finishCalls = 1) ∧
  (e.finished = false → e.span.finishCalls = 0 ∧ e.span.tagCalls "success" = [])

/-! ## Workers contending for the lock of one state -/

/-- One evaluation state together with the workers that have received the lock element and
have not yet released it. -/
structure LockSys where
  st : EvalState
  holders : List Nat
deriving DecidableEq, Repr

/-- One step of `N` workers on a state: worker `w` receives from `Lock()` (possible only when
an element is buffered) and becomes a holder, or a worker that holds calls `Free()`. -/
inductive LockSys.Step (N : Nat) : LockSys → LockSys → Prop where
  | acquire (sys : LockSys) (w : Nat) (hw : w < N) (hrecv : sys.st.recvLock.2 = true) :
      LockSys.Step N sys { st := sys.st.recvLock.1, holders := w :: sys.holders }
  | release (sys : LockSys) (w : Nat) (hw : w < N) (hheld : w ∈ sys.holders) :
      LockSys.Step N sys { st := sys.st.Free, holders := sys.holders.erase w }

/-- The states of the lock system reachable from a state fresh from `NewEvalState`. -/
inductive LockSys.Reachable (N : Nat) : LockSys → Prop where
  | init (id : String) (spanCtx : Option SpanContext) (e : EvalState) :
      NewEvalState id spanCtx = some e → LockSys.Reachable N { st := e, holders := [] }
  | step {sys sys2 : LockSys} :
      LockSys.Reachable N sys → LockSys.Step N sys sys2 → LockSys.Reachable N sys2

/-- The accounting behind mutual exclusion: the buffered elements and the holders together
are exactly one. -/
def LockSys.Balanced (sys : LockSys) : Prop :=
  sys.st.evalLock.cap = 1 ∧ sys.st.evalLock.len + sys.holders.length = 1

/-! ## Evaluation cache -/

/-- A `*EvalState`: the address of the state in the heap. -/
abbrev Addr := Nat

/-- The allocated evaluation states, by address. -/
abbrev Heap := List EvalState

/-- The Go type `map[string]*EvalState`, as an association list with at most one entry per
key. -/
abbrev StateMap := List (String × Addr)

/-- `EvalCache`: the map `states`. The field `lock` is a mutex and carries no data. -/
structure EvalCache where
  states : StateMap
deriving DecidableEq, Repr

/-- The map read `m[id]`. -/
def mapLookup (m : StateMap) (id : String) : Option Addr :=
  (m.find? (fun kv => kv.1 == id)).map (fun kv => kv.2)

/-- The map removal `delete(m, id)`. -/
def mapDelete (m : StateMap) (id : String) : StateMap :=
  m.filter (fun kv => !(kv.1 == id))

/-- The map write `m[id] = s`. -/
def mapStore (m : StateMap) (id : String) (s : Addr) : StateMap :=
  (id, s) :: mapDelete m id

/-- `NewEvalCache`. -/
def NewEvalCache : EvalCache := { states := [] }

/-- `EvalCache.Get`: the pointer (`none` is `nil`) and the presence flag. -/
def EvalCache.Get (e : EvalCache) (id : String) : Option Addr × Bool :=
  match mapLookup e.states id with
  | some s => (some s, true)
  | none => (none, false)

/-- `EvalCache.Put`: reads `state.id` through the pointer (`none` when the pointer does not
point to a state) and writes the map. -/
def EvalCache.Put (e : EvalCache) (h : Heap) (state : Addr) : Option EvalCache :=
  match h.get? state with
  | none => none
  | some st => some { states := mapStore e.states st.id state }

/-- `EvalCache.Del`. -/
def EvalCache.Del (e : EvalCache) (id : String) : EvalCache :=
  { states := mapDelete e.states id }

/-- Allocation of a new evaluation state: the heap afterwards and the new pointer. -/
def Heap.alloc (h : Heap) (st : EvalState) : Heap × Addr := (h ++ [st], h.length)

/-- `EvalCache.GetOrCreate`: the returned pointer, the cache and the heap afterwards. -/
def EvalCache.GetOrCreate (e : EvalCache) (h : Heap) (id : String)
    (spanCtx : Option SpanContext) : Option (Addr × EvalCache × Heap) :=
  match e.Get id with
  | (some s, true) => some (s, e, h)
  | _ =>
    match NewEvalState id spanCtx with
    | none => none
    | some st =>
      let (h2, s) := h.alloc st
      match e.Put h2 s with
      | none => none
      | some e2 => some (s, e2, h2)

/-- The loop of `EvalCache.Close` over the entries still to visit, for a close method
`closeFn` of the states: the heap and the lines written to the error log afterwards. -/
def EvalCache.closeStates (closeFn : Addr → EvalState → EvalState × Option String) :
    StateMap → Heap → List String → Option (Heap × List String)
  | [], h, errs => some (h, errs)
  | (_, a) :: rest, h, errs =>
    match h.get? a with
    | none => none
    | some es =>
      let r := closeFn a es
      let errs2 :=
        match r.2 with
        | some err => errs ++ ["Failed to close evaluation state: " ++ err]
        | none => errs
      EvalCache.closeStates closeFn rest (h.set a r.1) errs2

/-- `EvalCache.Close`: the heap and the error log afterwards, and the returned error (`none`
is `nil`). -/
def EvalCache.Close (e : EvalCache) (h : Heap) : Option (Heap × List String × Option String) :=
  match EvalCache.closeStates (fun _ es => es.Close) e.states h [] with
  | none => none
  | some (h2, errs) => some (h2, errs, none)

/-- `EvalCache.List`: a fresh map filled with every entry. -/
def EvalCache.List (e : EvalCache) : StateMap :=
  e.states.foldl (fun results kv => mapStore results kv.1 kv.2) []

/-- Every pointer stored in the cache points to an allocated state. -/
def EvalCache.WF (e : EvalCache) (h : Heap) : Prop :=
  ∀ kv ∈ e.states, kv.2 < h.length

instance (e : EvalCache) (h : Heap) : Decidable (e.WF h) := by
  unfold EvalCache.WF; infer_instance

/-- A close method that fails at the addresses where `failure` gives an error, leaving the
state as it is there, and is `EvalState.Close` elsewhere. -/
def closeFailingAt (failure : Addr → Option String) (a : Addr) (es : EvalState) :
    EvalState × Option String :=
  match failure a with
  | some err => (es, some err)
  | none => es.Close

/-- The cache operations. -/
inductive CacheOp where
  | getOrCreate (id : String) (spanCtx : Option SpanContext)
  | get (id : String)
  | put (state : Addr)
  | del (id : String)
  | list
  | close
deriving DecidableEq, Repr

/-- The cache and the heap after one cache operation. -/
def CacheOp.apply (e : EvalCache) (h : Heap) : CacheOp → Option (EvalCache × Heap)
  | CacheOp.getOrCreate id spanCtx => (e.GetOrCreate h id spanCtx).map (fun r => r.2)
  | CacheOp.get _ => some (e, h)
  | CacheOp.put state => (e.Put h state).map (fun e2 => (e2, h))
  | CacheOp.del id => some (e.Del id, h)
  | CacheOp.list => some (e, h)
  | CacheOp.close => (e.Close h).map (fun r => (e, r.1))

/-- The pointer argument of the operation, if it has one, points to an allocated state. -/
def CacheOp.ok (h : Heap) : CacheOp → Prop
  | CacheOp.put state => state < h.length
  | _ => True

/-! ## Concurrent callers of `GetOrCreate` -/

/-- Where one caller of `GetOrCreate` stands: before `e.Get(id)`, after a miss and before
`NewEvalState`, after `NewEvalState` and before `e.Put(s)`, returned, or stopped by a panic
in `NewEvalState`. -/
inductive Caller where
  | start
  | missed
  | created (s : Addr)
  | returned (s : Addr)
  | panicked
deriving DecidableEq, Repr

/-- The cache, the heap and the callers of `GetOrCreate(id, spanCtx)`. -/
structure ConcSys where
  cache : EvalCache
  heap : Heap
  callers : List Caller
deriving DecidableEq, Repr

/-- Caller `k` takes its next atomic step: `Get` under the read lock, `NewEvalState`, or `Put`
under the write lock followed by the return. -/
def ConcSys.step (id : String) (spanCtx : Option SpanContext) (sys : ConcSys) (k : Nat) :
    ConcSys :=
  match sys.callers.get? k with
  | some Caller.start =>
    match sys.cache.Get id with
    | (some s, true) => { sys with callers := sys.callers.set k (Caller.returned s) }
    | _ => { sys with callers := sys.callers.set k Caller.missed }
  | some Caller.missed =>
    match NewEvalState id spanCtx with
    | none => { sys with callers := sys.callers.set k Caller.panicked }
    | some st =>
      let r := sys.heap.alloc st
      { sys with heap := r.1, callers := sys.callers.set k (Caller.created r.2) }
  | some (Caller.created s) =>
    match sys.cache.Put sys.heap s with
    | some e2 => { sys with cache := e2, callers := sys.callers.set k (Caller.returned s) }
    | none => sys
  | _ => sys

/-- `K` callers about to call `GetOrCreate` on a fresh cache. -/
def ConcSys.init (K : Nat) : ConcSys :=
  { cache := NewEvalCache, heap := [], callers := List.replicate K Caller.start }

/-- The system after the callers have taken steps in the order of the schedule. -/
def ConcSys.run (id : String) (spanCtx : Option SpanContext) (sys : ConcSys)
    (schedule : List Nat) : ConcSys :=
  schedule.foldl (ConcSys.step id spanCtx) sys

/-! ## Calls of `Free` by any worker -/

/-- What a worker does to the lock of a state: it receives from `Lock()`, or it calls
`Free()`. -/
inductive LockEvent where
  | recv (w : Nat)
  | free (w : Nat)
deriving DecidableEq, Repr

/-- The lock system after one event. A receive that cannot proceed changes nothing. `Free()`
runs whoever calls it, since it takes no argument and reads only the channel; a caller that
held the lock element stops holding. -/
def LockSys.exec (sys : LockSys) : LockEvent → LockSys
  | LockEvent.recv w =>
    if sys.st.recvLock.2 then { st := sys.st.recvLock.1, holders := w :: sys.holders } else sys
  | LockEvent.free w => { st := sys.st.Free, holders := sys.holders.erase w }

/-- The lock system after a sequence of events, in order. -/
def LockSys.execAll (sys : LockSys) (events : List LockEvent) : LockSys :=
  events.foldl LockSys.exec sys

/-! ## Operations through a pointer -/

/-- An operation of `EvalState` invoked through the pointer `a`: the heap afterwards, `none`
when `a` does not point to a state. -/
def Heap.applyAt (h : Heap) (a : Addr) (op : StateOp) : Option Heap :=
  match h.get? a with
  | none => none
  | some st => some (h.set a (st.apply op))

/-! # Theorems -/

/-! ## The lock of a state -/

theorem NewEvalState_of_context (id : String) (ctx : SpanContext) :
    NewEvalState id (some ctx) = some (NewEvalState.make id ctx) := rfl

theorem NewEvalState_nil_context (id : String) : NewEvalState id none = none := rfl

theorem NewEvalState_eq_some {id : String} {spanCtx : Option SpanContext} {e : EvalState}
    (h : NewEvalState id spanCtx = some e) :
    ∃ ctx, spanCtx = some ctx ∧ e = NewEvalState.make id ctx := by
  cases spanCtx with
  | none => exact absurd h (by simp [NewEvalState])
  | some ctx => exact ⟨ctx, rfl, (Option.some.inj h).symm⟩

theorem NewEvalState_evalLock (id : String) (spanCtx : SpanContext) :
    (NewEvalState.make id spanCtx).evalLock = { cap := 1, len := 1 } := by
  simp [NewEvalState.make, EvalState.Free, Chan.trySend, Chan.make]

theorem LockSys.Balanced_step {N : Nat} {sys sys2 : LockSys} (hb : sys.Balanced)
    (hs : LockSys.Step N sys sys2) : sys2.Balanced := by
  obtain ⟨hcap, hsum⟩ := hb
  cases hs with
  | acquire w hw hrecv =>
    simp only [EvalState.recvLock, EvalState.Lock, Chan.tryRecv] at hrecv
    by_cases hl : 0 < sys.st.evalLock.len
    · simp only [LockSys.Balanced, EvalState.recvLock, EvalState.Lock, Chan.tryRecv, hl,
        if_true, List.length_cons]
      refine ⟨hcap, ?_⟩
      omega
    · simp [hl] at hrecv
  | release w hw hheld =>
    have hpos : 0 < sys.holders.length := List.length_pos_of_mem hheld
    have hlen : sys.st.evalLock.len = 0 := by omega
    have herase : (sys.holders.erase w).length = sys.holders.length - 1 :=
      List.length_erase_of_mem hheld
    simp only [LockSys.Balanced, EvalState.Free, Chan.trySend, hlen, hcap, herase]
    simp
    omega

theorem LockSys.Reachable.balanced {N : Nat} {sys : LockSys} (h : LockSys.Reachable N sys) :
    sys.Balanced := by
  induction h with
  | init id spanCtx e hnew =>
    obtain ⟨ctx, _, he⟩ := NewEvalState_eq_some hnew
    subst he
    simp [LockSys.Balanced, NewEvalState_evalLock]
  | step _ hs ih => exact LockSys.Balanced_step ih hs

/-- C1: in every state of the lock system reachable from a state fresh from `NewEvalState`, by
any interleaving of receives from `Lock()` and of `Free()` calls by holders, by any number `N`
of workers, at most one worker holds the lock element. -/
theorem at_most_one_holder (N : Nat) (sys : LockSys) (h : LockSys.Reachable N sys) :
    sys.holders.length ≤ 1 := by
  have hb := h.balanced
  unfold LockSys.Balanced at hb
  omega

/-- C1 at a concrete state: of three workers, worker `2` has received the lock element. -/
theorem at_most_one_holder_witness :
    LockSys.Reachable 3 { st := (NewEvalState.make "wfi-1" ⟨[]⟩).recvLock.1, holders := [2] } ∧
    ({ st := (NewEvalState.make "wfi-1" ⟨[]⟩).recvLock.1, holders := [2] } : LockSys).holders.length
      ≤ 1 :=
  ⟨LockSys.Reachable.step (LockSys.Reachable.init "wfi-1" (some ⟨[]⟩) _ rfl)
      (LockSys.Step.acquire _ 2 (by decide) (by decide)),
   at_most_one_holder 3 _
    (LockSys.Reachable.step (LockSys.Reachable.init "wfi-1" (some ⟨[]⟩) _ rfl)
      (LockSys.Step.acquire _ 2 (by decide) (by decide)))⟩

/-! ## The map of the cache -/

theorem mapLookup_cons (k : String) (v : Addr) (m : StateMap) (id : String) :
    mapLookup ((k, v) :: m) id = if k = id then some v else mapLookup m id := by
  by_cases hk : k = id <;> simp [mapLookup, List.find?_cons, hk]

theorem mapDelete_cons (k : String) (v : Addr) (m : StateMap) (id : String) :
    mapDelete ((k, v) :: m) id = if k = id then mapDelete m id else (k, v) :: mapDelete m id := by
  by_cases hk : k = id <;> simp [mapDelete, List.filter_cons, hk]

theorem mapLookup_mapDelete_ne (m : StateMap) {id id2 : String} (hne : id2 ≠ id) :
    mapLookup (mapDelete m id) id2 = mapLookup m id2 := by
  induction m with
  | nil => rfl
  | cons kv rest ih =>
    obtain ⟨k, v⟩ := kv
    rw [mapDelete_cons, mapLookup_cons]
    by_cases hk : k = id
    · have hk2 : ¬ k = id2 := fun h => hne (h.symm.trans hk)
      rw [if_pos hk, if_neg hk2, ih]
    · rw [if_neg hk, mapLookup_cons, ih]

theorem mapLookup_mapDelete_self (m : StateMap) (id : String) :
    mapLookup (mapDelete m id) id = none := by
  induction m with
  | nil => rfl
  | cons kv rest ih =>
    obtain ⟨k, v⟩ := kv
    rw [mapDelete_cons]
    by_cases hk : k = id
    · rw [if_pos hk, ih]
    · rw [if_neg hk, mapLookup_cons, if_neg hk, ih]

theorem mapLookup_mapStore_self (m : StateMap) (id : String) (s : Addr) :
    mapLookup (mapStore m id s) id = some s := by
  rw [mapStore, mapLookup_cons, if_pos rfl]

theorem mapLookup_mapStore_ne (m : StateMap) {id id2 : String} (s : Addr) (hne : id2 ≠ id) :
    mapLookup (mapStore m id s) id2 = mapLookup m id2 := by
  rw [mapStore, mapLookup_cons, if_neg (fun h => hne h.symm), mapLookup_mapDelete_ne m hne]

theorem mapDelete_of_lookup_none (m : StateMap) (id : String) (h : mapLookup m id = none) :
    mapDelete m id = m := by
  induction m with
  | nil => rfl
  | cons kv rest ih =>
    obtain ⟨k, v⟩ := kv
    rw [mapLookup_cons] at h
    by_cases hk : k = id
    · rw [if_pos hk] at h
      exact absurd h (by simp)
    · rw [if_neg hk] at h
      rw [mapDelete_cons, if_neg hk, ih h]

theorem EvalCache.Get_eq (e : EvalCache) (id : String) :
    e.Get id = (mapLookup e.states id, (mapLookup e.states id).isSome) := by
  unfold EvalCache.Get
  cases mapLookup e.states id <;> rfl

/-! ## `GetOrCreate` -/

/-- C2: on a fresh cache, two concurrent callers of `GetOrCreate("x", ctx)` that both run `Get`
before either runs `Put` return two different states; the cache keeps the one put last. -/
theorem GetOrCreate_race :
    (ConcSys.run "x" (some ⟨[]⟩) (ConcSys.init 2) [0, 1, 0, 1, 0, 1]).callers
        = [Caller.returned 0, Caller.returned 1] ∧
    (ConcSys.run "x" (some ⟨[]⟩) (ConcSys.init 2) [0, 1, 0, 1, 0, 1]).cache.states = [("x", 1)] ∧
    (ConcSys.run "x" (some ⟨[]⟩) (ConcSys.init 2) [0, 1, 0, 1, 0, 1]).heap.length = 2 := by
  decide

theorem EvalCache.GetOrCreate_present (e : EvalCache) (h : Heap) (id : String)
    (spanCtx : Option SpanContext) (s : Addr) (hget : e.Get id = (some s, true)) :
    e.GetOrCreate h id spanCtx = some (s, e, h) := by
  simp [EvalCache.GetOrCreate, hget]

theorem EvalCache.GetOrCreate_absent (e : EvalCache) (h : Heap) (id : String)
    (ctx : SpanContext) (hget : (e.Get id).2 = false) :
    e.GetOrCreate h id (some ctx) =
      some (h.length, { states := (id, h.length) :: e.states },
        h ++ [NewEvalState.make id ctx]) := by
  rw [EvalCache.Get_eq] at hget
  have hnone : mapLookup e.states id = none := by
    cases hl : mapLookup e.states id with
    | none => rfl
    | some a => simp [hl] at hget
  have hid : (NewEvalState.make id ctx).id = id := rfl
  simp [EvalCache.GetOrCreate, EvalCache.Get_eq, hnone, NewEvalState, Heap.alloc, EvalCache.Put,
    hid, mapStore, mapDelete_of_lookup_none _ _ hnone]

theorem EvalCache.GetOrCreate_absent_nil (e : EvalCache) (h : Heap) (id : String)
    (hget : (e.Get id).2 = false) : e.GetOrCreate h id none = none := by
  rw [EvalCache.Get_eq] at hget
  have hnone : mapLookup e.states id = none := by
    cases hl : mapLookup e.states id with
    | none => rfl
    | some a => simp [hl] at hget
  simp [EvalCache.GetOrCreate, EvalCache.Get_eq, hnone, NewEvalState]

/-- C3, as the claim states it, fails for the `nil` context: on a fresh cache, which holds no
state under `"wfi-1"`, `GetOrCreate("wfi-1", nil)` does not return a new state. `NewEvalState`
calls `ForeachBaggageItem` through the nil interface and panics; nothing is stored. -/
theorem GetOrCreate_miss_nil_context :
    (NewEvalCache.Get "wfi-1").2 = false ∧
    NewEvalState "wfi-1" none = none ∧
    NewEvalCache.GetOrCreate [] "wfi-1" none = none ∧
    ¬ ∃ (s : Addr) (e2 : EvalCache) (h2 : Heap),
      NewEvalCache.GetOrCreate [] "wfi-1" none = some (s, e2, h2) := by
  refine ⟨by decide, rfl, by decide, ?_⟩
  rintro ⟨s, e2, h2, hsome⟩
  have hnone : NewEvalCache.GetOrCreate [] "wfi-1" none = none := by decide
  rw [hnone] at hsome
  exact absurd hsome (by simp)

/-- C3, amended: `GetOrCreate` called alone. If the cache holds `s` under `id`, it returns `s`
and changes neither the cache nor the heap, whatever the context, `nil` included. Otherwise,
for a context `ctx` that is not `nil`, it allocates a new state, which is what `NewEvalState`
returns for `id` and `ctx`, with `ID()` equal to `id`, at an address not used before, returns
it and stores it: the entries are the old ones and the new one, `Get id` returns the new
state, every other lookup is as before, and a later `GetOrCreate` for `id`, with any context,
returns the same state again and changes nothing. One of the two cases always applies. -/
theorem GetOrCreate_sequential (e : EvalCache) (h : Heap) (id : String)
    (spanCtx : Option SpanContext) (ctx : SpanContext) :
    ((∃ s, e.Get id = (some s, true)) ∨ (e.Get id).2 = false) ∧
    (∀ s, e.Get id = (some s, true) → e.GetOrCreate h id spanCtx = some (s, e, h)) ∧
    ((e.Get id).2 = false →
      ∃ (s : Addr) (e2 : EvalCache) (h2 : Heap) (st : EvalState),
        e.GetOrCreate h id (some ctx) = some (s, e2, h2) ∧
        NewEvalState id (some ctx) = some st ∧
        h.get? s = none ∧ h2 = h ++ [st] ∧
        h2.get? s = some st ∧ st.ID = id ∧
        e2.states = (id, s) :: e.states ∧
        e2.Get id = (some s, true) ∧
        (∀ id2, id2 ≠ id → e2.Get id2 = e.Get id2) ∧
        (∀ spanCtx2 : Option SpanContext,
          e2.GetOrCreate h2 id spanCtx2 = some (s, e2, h2))) := by
  refine ⟨?_, fun s hs => EvalCache.GetOrCreate_present e h id spanCtx s hs, fun habs => ?_⟩
  · rw [EvalCache.Get_eq]
    cases mapLookup e.states id with
    | none => exact Or.inr rfl
    | some a => exact Or.inl ⟨a, rfl⟩
  · have hget2 : EvalCache.Get { states := (id, h.length) :: e.states } id
        = (some h.length, true) := by
      rw [EvalCache.Get_eq, mapLookup_cons, if_pos rfl]; rfl
    refine ⟨h.length, { states := (id, h.length) :: e.states }, h ++ [NewEvalState.make id ctx],
      NewEvalState.make id ctx, EvalCache.GetOrCreate_absent e h id ctx habs, rfl, ?_, rfl, ?_,
      rfl, rfl, hget2, ?_, ?_⟩
    · simp
    · simp
    · intro id2 hne
      rw [EvalCache.Get_eq, EvalCache.Get_eq, mapLookup_cons, if_neg (fun h => hne h.symm)]
    · intro spanCtx2
      exact EvalCache.GetOrCreate_present _ _ id spanCtx2 h.length hget2

/-- C3, amended, at concrete caches: one that holds a state under `"wfi-1"`, asked with the
`nil` context, and a fresh one, asked with a context without baggage. -/
theorem GetOrCreate_sequential_witness :
    EvalCache.GetOrCreate { states := [("wfi-1", 0)] } [NewEvalState.make "wfi-1" ⟨[]⟩] "wfi-1"
      none = some (0, { states := [("wfi-1", 0)] }, [NewEvalState.make "wfi-1" ⟨[]⟩]) ∧
    ∃ (s : Addr) (e2 : EvalCache) (h2 : Heap) (st : EvalState),
        NewEvalCache.GetOrCreate [] "wfi-1" (some ⟨[]⟩) = some (s, e2, h2) ∧
        NewEvalState "wfi-1" (some ⟨[]⟩) = some st ∧
        ([] : Heap).get? s = none ∧ h2 = [] ++ [st] ∧
        h2.get? s = some st ∧ st.ID = "wfi-1" ∧
        e2.states = ("wfi-1", s) :: NewEvalCache.states ∧
        e2.Get "wfi-1" = (some s, true) ∧
        (∀ id2, id2 ≠ "wfi-1" → e2.Get id2 = NewEvalCache.Get id2) ∧
        (∀ spanCtx2 : Option SpanContext,
          e2.GetOrCreate h2 "wfi-1" spanCtx2 = some (s, e2, h2)) :=
  ⟨(GetOrCreate_sequential { states := [("wfi-1", 0)] } [NewEvalState.make "wfi-1" ⟨[]⟩] "wfi-1"
      none ⟨[]⟩).2.1 0 (by decide),
   (GetOrCreate_sequential NewEvalCache [] "wfi-1" none ⟨[]⟩).2.2 (by decide)⟩

/-! ## The log of a state -/

theorem EvalState.Logs_eq (e : EvalState) : e.Logs = e.log := by
  simp [EvalState.Logs]

theorem EvalState.apply_log (e : EvalState) (op : StateOp) :
    (e.apply op).log = e.log ++ StateOp.records [op] := by
  cases op <;>
    simp [EvalState.apply, StateOp.records, EvalState.Finish, EvalState.Close, EvalState.Record,
      EvalLog.Record, EvalState.Free, EvalState.recvLock, EvalState.Log]
  all_goals split <;> rfl

theorem StateOp.records_cons (op : StateOp) (ops : List StateOp) :
    StateOp.records (op :: ops) = StateOp.records [op] ++ StateOp.records ops := by
  cases op <;> simp [StateOp.records]

theorem StateOp.records_append (ops1 ops2 : List StateOp) :
    StateOp.records (ops1 ++ ops2) = StateOp.records ops1 ++ StateOp.records ops2 := by
  induction ops1 with
  | nil => simp [StateOp.records]
  | cons op rest ih =>
    rw [List.cons_append, StateOp.records_cons, ih, StateOp.records_cons op rest,
      List.append_assoc]

theorem StateOp.records_map_record (rs : List EvalRecord) :
    StateOp.records (rs.map StateOp.record) = rs := by
  induction rs with
  | nil => rfl
  | cons r rest ih => simp [StateOp.records, ih]

theorem EvalState.run_log (ops : List StateOp) (e : EvalState) :
    (e.run ops).log = e.log ++ StateOp.records ops := by
  induction ops generalizing e with
  | nil => simp [EvalState.run, StateOp.records]
  | cons op rest ih =>
    have hstep : e.run (op :: rest) = (e.apply op).run rest := rfl
    rw [hstep, ih, EvalState.apply_log, StateOp.records_cons op rest, List.append_assoc]

/-- C4: the log is append-only. After any sequence of operations on a state (records
interleaved with `Finish`, `Close`, `Free`, receives from `Lock()`, `Log` and reads),
`Logs()` is the log before followed by the appended records in call order; after `Record`
calls alone it is the log before followed by exactly those records; on a fresh state its
length is the number of `Record` calls; and whatever `Logs()` returned earlier is an initial
segment of what it returns later, so that no record disappears or moves. -/
theorem Logs_append_only (e : EvalState) (ops ops2 : List StateOp) (rs : List EvalRecord)
    (id : String) (spanCtx : SpanContext) :
    (e.run ops).Logs = e.log ++ StateOp.records ops ∧
    (e.run (rs.map StateOp.record)).Logs = e.Logs ++ rs ∧
    ((NewEvalState.make id spanCtx).run ops).Logs = StateOp.records ops ∧
    ((NewEvalState.make id spanCtx).run ops).Count = ((StateOp.records ops).length : Int) ∧
    ((e.run ops).run ops2).Logs = (e.run ops).Logs ++ StateOp.records ops2 := by
  have hnew : (NewEvalState.make id spanCtx).log = [] := rfl
  refine ⟨?_, ?_, ?_, ?_, ?_⟩
  · rw [EvalState.Logs_eq, EvalState.run_log]
  · rw [EvalState.Logs_eq, EvalState.Logs_eq, EvalState.run_log, StateOp.records_map_record]
  · rw [EvalState.Logs_eq, EvalState.run_log, hnew, List.nil_append]
  · rw [EvalState.Count, EvalState.run_log, hnew, List.nil_append]
  · rw [EvalState.Logs_eq, EvalState.Logs_eq, EvalState.run_log]

/-! ## Invariants of a state -/

theorem EvalState.Inv_new (id : String) (spanCtx : SpanContext) :
    (NewEvalState.make id spanCtx).Inv := by
  refine ⟨rfl, by simp [NewEvalState_evalLock], ?_, ?_⟩
  · intro h; exact absurd h (by simp [NewEvalState.make, EvalState.Free])
  · intro _
    refine ⟨rfl, ?_⟩
    simp [NewEvalState.make, EvalState.Free, Span.tagCalls, Span.SetTag, StartSpan, ext.Component]

theorem EvalState.Inv_Finish (e : EvalState) (success : Bool) (msg : List String)
    (h : e.Inv) : (e.Finish success msg).Inv := by
  obtain ⟨hcap, hlen, hfin, hnot⟩ := h
  unfold EvalState.Finish
  by_cases hf : e.finished = true
  · rw [if_pos hf]; exact ⟨hcap, hlen, hfin, hnot⟩
  · rw [if_neg hf]
    have hf2 : e.finished = false := by simpa using hf
    refine ⟨hcap, hlen, ?_, ?_⟩
    · intro _
      have h0 := (hnot hf2).1
      by_cases hm : msg.length > 0 <;> simp [hm, Span.Finish, Span.LogKV, Span.SetTag, h0]
    · intro hcontra; exact absurd hcontra (by simp)

theorem EvalState.Inv_apply (e : EvalState) (op : StateOp) (h : e.Inv) : (e.apply op).Inv := by
  cases op with
  | finish success msg => exact EvalState.Inv_Finish e success msg h
  | close => exact EvalState.Inv_Finish e false ["controller closed"] h
  | record r => exact h
  | free =>
    obtain ⟨hcap, hlen, hfin, hnot⟩ := h
    refine ⟨?_, ?_, hfin, hnot⟩
    · simp only [EvalState.apply, EvalState.Free, Chan.trySend]; split <;> exact hcap
    · simp only [EvalState.apply, EvalState.Free, Chan.trySend]
      split
      · simp only; omega
      · exact hlen
  | recvLock =>
    obtain ⟨hcap, hlen, hfin, hnot⟩ := h
    refine ⟨?_, ?_, hfin, hnot⟩
    · simp only [EvalState.apply, EvalState.recvLock, EvalState.Lock, Chan.tryRecv]
      split <;> exact hcap
    · simp only [EvalState.apply, EvalState.recvLock, EvalState.Lock, Chan.tryRecv]
      split
      · simp only; omega
      · exact hlen
  | log fields =>
    obtain ⟨hcap, hlen, hfin, hnot⟩ := h
    exact ⟨hcap, hlen, hfin, hnot⟩
  | read => exact h

theorem EvalState.Reachable.inv {e : EvalState} (h : e.Reachable) : e.Inv := by
  induction h with
  | new id spanCtx e hnew =>
    obtain ⟨ctx, _, he⟩ := NewEvalState_eq_some hnew
    subst he
    exact EvalState.Inv_new id ctx
  | step op _ ih => exact EvalState.Inv_apply _ op ih

/-! ## `Finish` -/

theorem EvalState.Finish_finished (e : EvalState) (success : Bool) (msg : List String) :
    (e.Finish success msg).finished = true := by
  unfold EvalState.Finish
  by_cases hf : e.finished = true
  · rw [if_pos hf]; exact hf
  · rw [if_neg hf]

theorem EvalState.Finish_of_finished (e : EvalState) (success : Bool) (msg : List String)
    (hf : e.finished = true) : e.Finish success msg = e := by
  unfold EvalState.Finish
  rw [if_pos hf]

/-- C5: `Finish` is idempotent. On every state that exists, a second `Finish(b2, m2)` after
`Finish(b1, m1)` leaves the state exactly as the first call left it: finished, with the span
finished once. When `Finish(b1, m1)` is the first `Finish` of the state (it was not finished
before), the span has been tagged `success` exactly once, with `b1`, and its log has gained
exactly the reason of `m1` (nothing when `m1` is empty), never those of `(b2, m2)`. -/
theorem Finish_idempotent (e : EvalState) (he : e.Reachable) (b1 b2 : Bool)
    (m1 m2 : List String) :
    (e.Finish b1 m1).Finish b2 m2 = e.Finish b1 m1 ∧
    ((e.Finish b1 m1).Finish b2 m2).IsFinished = true ∧
    ((e.Finish b1 m1).Finish b2 m2).span.finishCalls = 1 ∧
    (e.IsFinished = false →
      ((e.Finish b1 m1).Finish b2 m2).span.tagCalls "success" = [TagValue.bool b1] ∧
      ((e.Finish b1 m1).Finish b2 m2).span.tag "success" = some (TagValue.bool b1) ∧
      ((e.Finish b1 m1).Finish b2 m2).span.logs =
        e.span.logs ++ (if m1.length > 0 then [[("reason", strings.Join m1 " ")]] else [])) := by
  have hidem : (e.Finish b1 m1).Finish b2 m2 = e.Finish b1 m1 :=
    EvalState.Finish_of_finished _ b2 m2 (EvalState.Finish_finished e b1 m1)
  have hinv := EvalState.Inv_Finish e b1 m1 he.inv
  rw [hidem]
  refine ⟨rfl, EvalState.Finish_finished e b1 m1, hinv.2.2.1 (EvalState.Finish_finished e b1 m1),
    fun hnf => ?_⟩
  have hnf2 : e.finished = false := hnf
  have htags := (he.inv.2.2.2 hnf2).2
  simp only [Span.tagCalls] at htags
  unfold EvalState.Finish
  simp only [hnf2]
  refine ⟨?_, ?_, ?_⟩
  · by_cases hm : m1.length > 0 <;>
      simp [hm, Span.Finish, Span.LogKV, Span.SetTag, Span.tagCalls, htags]
  · by_cases hm : m1.length > 0 <;>
      simp [hm, Span.Finish, Span.LogKV, Span.SetTag, Span.tag]
  · by_cases hm : m1.length > 0 <;>
      simp [hm, Span.Finish, Span.LogKV, Span.SetTag]

/-- C5 at a concrete state: `Finish(true, "completed")` then `Finish(false, "ignored")` on a
fresh state. -/
theorem Finish_idempotent_witness :
    ((NewEvalState.make "wfi-1" ⟨[]⟩).Finish true ["completed"]).Finish false ["ignored"]
      = (NewEvalState.make "wfi-1" ⟨[]⟩).Finish true ["completed"] ∧
    (((NewEvalState.make "wfi-1" ⟨[]⟩).Finish true ["completed"]).Finish false ["ignored"]).span.tag
      "success" = some (TagValue.bool true) :=
  ⟨(Finish_idempotent (NewEvalState.make "wfi-1" ⟨[]⟩) (EvalState.Reachable.new "wfi-1" (some ⟨[]⟩) _ rfl)
      true false ["completed"] ["ignored"]).1,
   ((Finish_idempotent (NewEvalState.make "wfi-1" ⟨[]⟩) (EvalState.Reachable.new "wfi-1" (some ⟨[]⟩) _ rfl)
      true false ["completed"] ["ignored"]).2.2.2 (by decide)).2.1⟩

/-! ## `Close` of the cache -/

theorem EvalState.Close_finished (e : EvalState) : e.Close.1.finished = true :=
  EvalState.Finish_finished e false ["controller closed"]

theorem closeFailingAt_mono (failure : Addr → Option String) (a : Addr) (es : EvalState)
    (hf : es.finished = true) : (closeFailingAt failure a es).1.finished = true := by
  unfold closeFailingAt
  cases failure a with
  | none => exact EvalState.Close_finished es
  | some err => exact hf

theorem closeFailingAt_good (failure : Addr → Option String) (a : Addr) (es : EvalState)
    (hgood : failure a = none) : (closeFailingAt failure a es).1.finished = true := by
  unfold closeFailingAt
  rw [hgood]
  exact EvalState.Close_finished es

/-- The loop of `Close` visits every entry: it ends, keeps the size of the heap and every
finished state finished, and leaves finished every visited state whose close method finishes
it. -/
theorem closeStates_spec (closeFn : Addr → EvalState → EvalState × Option String)
    (good : Addr → Prop)
    (hmono : ∀ a es, es.finished = true → (closeFn a es).1.finished = true)
    (hgood : ∀ a es, good a → (closeFn a es).1.finished = true)
    (entries : StateMap) :
    ∀ (h : Heap) (errs : List String), (∀ kv ∈ entries, kv.2 < h.length) →
      ∃ h2 errs2, EvalCache.closeStates closeFn entries h errs = some (h2, errs2) ∧
        h2.length = h.length ∧
        (∀ a es, h.get? a = some es → es.finished = true →
          ∃ es2, h2.get? a = some es2 ∧ es2.finished = true) ∧
        (∀ kv ∈ entries, good kv.2 → ∃ es2, h2.get? kv.2 = some es2 ∧ es2.finished = true) := by
  induction entries with
  | nil =>
    intro h errs _
    exact ⟨h, errs, rfl, rfl, fun a es ha hf => ⟨es, ha, hf⟩, fun kv hkv => absurd hkv (by simp)⟩
  | cons kv rest ih =>
    intro h errs hwf
    obtain ⟨k, a⟩ := kv
    have ha : a < h.length := hwf (k, a) (by simp)
    have hget : h.get? a = some (h.get ⟨a, ha⟩) := List.get?_eq_get ha
    have hwf2 : ∀ kv ∈ rest, kv.2 < (h.set a (closeFn a (h.get ⟨a, ha⟩)).1).length := by
      intro kv hkv
      rw [List.length_set]
      exact hwf kv (List.mem_cons_of_mem _ hkv)
    obtain ⟨h2, errs2, hrun, hlen, hkeep, hall⟩ := ih (h.set a (closeFn a (h.get ⟨a, ha⟩)).1)
      (match (closeFn a (h.get ⟨a, ha⟩)).2 with
        | some err => errs ++ ["Failed to close evaluation state: " ++ err]
        | none => errs) hwf2
    have hkeep2 : ∀ b es, h.get? b = some es → es.finished = true →
        ∃ es2, h2.get? b = some es2 ∧ es2.finished = true := by
      intro b es hb hf
      by_cases hba : a = b
      · subst hba
        have hes : es = h.get ⟨a, ha⟩ := by
          rw [hget] at hb; exact (Option.some.inj hb).symm
        refine hkeep a (closeFn a (h.get ⟨a, ha⟩)).1 ?_ (hes ▸ hmono a es hf)
        rw [List.get?_eq_getElem?, List.getElem?_set_self ha]
      · refine hkeep b es ?_ hf
        rw [List.get?_eq_getElem?, List.getElem?_set_ne hba, ← List.get?_eq_getElem?]
        exact hb
    refine ⟨h2, errs2, ?_, ?_, hkeep2, ?_⟩
    · rw [EvalCache.closeStates, hget]
      exact hrun
    · rw [hlen, List.length_set]
    · intro kv hkv hg
      rcases List.mem_cons.mp hkv with heq | hmem
      · subst heq
        refine hkeep a (closeFn a (h.get ⟨a, ha⟩)).1 ?_ (hgood a _ hg)
        rw [List.get?_eq_getElem?, List.getElem?_set_self ha]
      · exact hall kv hmem hg


/-- C10: bulk shutdown. On every cache whose pointers point to allocated states, `Close()`
visits every entry and returns `nil`; it writes no entry of the cache and allocates nothing;
afterwards every state registered in the cache is finished. The loop does not stop at a close
method that fails: with a close method that fails at any chosen addresses, every registered
state at another address is finished all the same. -/
theorem Close_finishes_all (e : EvalCache) (h : Heap) (hwf : e.WF h) :
    ∃ h2 errs, e.Close h = some (h2, errs, none) ∧
      CacheOp.apply e h CacheOp.close = some (e, h2) ∧
      h2.length = h.length ∧
      (∀ kv ∈ e.states, ∃ es, h2.get? kv.2 = some es ∧ es.IsFinished = true) ∧
      (∀ failure : Addr → Option String, ∃ h3 errs3,
        EvalCache.closeStates (closeFailingAt failure) e.states h [] = some (h3, errs3) ∧
        ∀ kv ∈ e.states, failure kv.2 = none →
          ∃ es, h3.get? kv.2 = some es ∧ es.IsFinished = true) := by
  obtain ⟨h2, errs, hrun, hlen, _, hall⟩ :=
    closeStates_spec (fun _ es => es.Close) (fun _ => True)
      (fun _ es _ => EvalState.Close_finished es) (fun _ es _ => EvalState.Close_finished es)
      e.states h [] hwf
  refine ⟨h2, errs, ?_, ?_, hlen, fun kv hkv => hall kv hkv trivial, fun failure => ?_⟩
  · simp [EvalCache.Close, hrun]
  · simp [CacheOp.apply, EvalCache.Close, hrun]
  · obtain ⟨h3, errs3, hrun3, _, _, hall3⟩ :=
      closeStates_spec (closeFailingAt failure) (fun a => failure a = none)
        (closeFailingAt_mono failure) (closeFailingAt_good failure) e.states h [] hwf
    exact ⟨h3, errs3, hrun3, hall3⟩

/-- C10 at a concrete cache holding three unfinished states. -/
theorem Close_finishes_all_witness :
    EvalCache.WF { states := [("a", 0), ("b", 1), ("c", 2)] }
      [NewEvalState.make "a" ⟨[]⟩, NewEvalState.make "b" ⟨[]⟩, NewEvalState.make "c" ⟨[]⟩] ∧
    ∃ h2 errs,
      EvalCache.Close { states := [("a", 0), ("b", 1), ("c", 2)] }
        [NewEvalState.make "a" ⟨[]⟩, NewEvalState.make "b" ⟨[]⟩, NewEvalState.make "c" ⟨[]⟩]
        = some (h2, errs, none) ∧
      ∀ kv ∈ [("a", 0), ("b", 1), ("c", 2)], ∃ es, h2.get? kv.2 = some es ∧
        es.IsFinished = true :=
  ⟨by decide,
   match Close_finishes_all { states := [("a", 0), ("b", 1), ("c", 2)] }
      [NewEvalState.make "a" ⟨[]⟩, NewEvalState.make "b" ⟨[]⟩, NewEvalState.make "c" ⟨[]⟩] (by decide) with
   | ⟨h2, errs, hclose, _, _, hall, _⟩ => ⟨h2, errs, hclose, hall⟩⟩

/-! ## The finished flag -/

theorem EvalState.apply_finished (e : EvalState) (op : StateOp) (hf : e.finished = true) :
    (e.apply op).finished = true := by
  cases op with
  | finish success msg => exact EvalState.Finish_finished e success msg
  | close => exact EvalState.Close_finished e
  | record r => exact hf
  | free => exact hf
  | recvLock => exact hf
  | log fields => exact hf
  | read => exact hf

theorem EvalState.run_finished (ops : List StateOp) (e : EvalState) (hf : e.finished = true) :
    (e.run ops).finished = true := by
  induction ops generalizing e with
  | nil => exact hf
  | cons op rest ih => exact ih (e.apply op) (EvalState.apply_finished e op hf)

theorem CacheOp.apply_keeps_finished (c : EvalCache) (h : Heap) (a : Addr) (e : EvalState)
    (cop : CacheOp) (hwf : c.WF h) (hok : cop.ok h) (ha : h.get? a = some e)
    (hf : e.finished = true) :
    (∃ c2 h2 e2, CacheOp.apply c h cop = some (c2, h2) ∧ h2.get? a = some e2 ∧
      e2.finished = true) ∨
    (∃ id, cop = CacheOp.getOrCreate id none ∧ (c.Get id).2 = false ∧
      CacheOp.apply c h cop = none) := by
  cases cop with
  | getOrCreate id spanCtx =>
    have hcases : (∃ s, c.Get id = (some s, true)) ∨ (c.Get id).2 = false := by
      rw [EvalCache.Get_eq]
      cases mapLookup c.states id with
      | none => exact Or.inr rfl
      | some s => exact Or.inl ⟨s, rfl⟩
    rcases hcases with ⟨s, hs⟩ | habs
    · exact Or.inl ⟨c, h, e,
        by simp [CacheOp.apply, EvalCache.GetOrCreate_present c h id spanCtx s hs], ha, hf⟩
    · cases spanCtx with
      | none =>
        exact Or.inr ⟨id, rfl, habs,
          by simp [CacheOp.apply, EvalCache.GetOrCreate_absent_nil c h id habs]⟩
      | some ctx =>
        refine Or.inl ⟨_, h ++ [NewEvalState.make id ctx], e,
          by simp [CacheOp.apply, EvalCache.GetOrCreate_absent c h id ctx habs]; rfl, ?_, hf⟩
        rw [List.get?_eq_getElem?] at ha ⊢
        rw [List.getElem?_append_left (List.getElem?_eq_some.mp ha).1]
        exact ha
  | get id => exact Or.inl ⟨c, h, e, rfl, ha, hf⟩
  | put state =>
    have hs : state < h.length := hok
    have hput : c.Put h state
        = some { states := mapStore c.states (h.get ⟨state, hs⟩).id state } := by
      unfold EvalCache.Put
      rw [List.get?_eq_get hs]
    exact Or.inl ⟨_, h, e, by simp only [CacheOp.apply, hput]; rfl, ha, hf⟩
  | del id => exact Or.inl ⟨c.Del id, h, e, rfl, ha, hf⟩
  | list => exact Or.inl ⟨c, h, e, rfl, ha, hf⟩
  | close =>
    obtain ⟨h2, errs, hrun, _, hkeep, _⟩ :=
      closeStates_spec (fun _ es => es.Close) (fun _ => True)
        (fun _ es _ => EvalState.Close_finished es) (fun _ es _ => EvalState.Close_finished es)
        c.states h [] hwf
    obtain ⟨e2, he2, hf2⟩ := hkeep a e ha hf
    exact Or.inl ⟨c, h2, e2, by simp [CacheOp.apply, EvalCache.Close, hrun], he2, hf2⟩

/-- C6: `finished` never reverts. A state on which `IsFinished()` is true is still finished
after any single operation on it (`Finish`, `Close`, `Record`, `Free`, a receive from
`Lock()`, `Log`, a read), hence after any sequence of them, and the state at its address is
still finished after any cache operation (`GetOrCreate`, `Get`, `Put`, `Del`, `List`,
`Close`). On a cache whose pointers are allocated every cache operation completes, except
`GetOrCreate` with the `nil` context for an id that the cache does not hold: that call panics
in `NewEvalState` before anything is written, so the state stays as it was, finished. -/
theorem finished_monotonic (e : EvalState) (hfin : e.IsFinished = true) :
    (∀ op, (e.apply op).IsFinished = true) ∧
    (∀ ops, (e.run ops).IsFinished = true) ∧
    (∀ (c : EvalCache) (h : Heap) (a : Addr) (cop : CacheOp),
      c.WF h → cop.ok h → h.get? a = some e →
      (∃ c2 h2 e2, CacheOp.apply c h cop = some (c2, h2) ∧ h2.get? a = some e2 ∧
        e2.IsFinished = true) ∨
      (∃ id, cop = CacheOp.getOrCreate id none ∧ (c.Get id).2 = false ∧
        CacheOp.apply c h cop = none)) :=
  ⟨fun op => EvalState.apply_finished e op hfin,
   fun ops => EvalState.run_finished ops e hfin,
   fun c h a cop hwf hok ha => CacheOp.apply_keeps_finished c h a e cop hwf hok ha hfin⟩

/-- C6 at a concrete finished state, registered in a cache that is then closed. -/
theorem finished_monotonic_witness :
    ((NewEvalState.make "wfi-1" ⟨[]⟩).Finish true ["completed"]).IsFinished = true ∧
    (∀ op, (((NewEvalState.make "wfi-1" ⟨[]⟩).Finish true ["completed"]).apply op).IsFinished
      = true) ∧
    ∃ c2 h2 e2,
      CacheOp.apply { states := [("wfi-1", 0)] }
        [(NewEvalState.make "wfi-1" ⟨[]⟩).Finish true ["completed"]] CacheOp.close = some (c2, h2) ∧
      h2.get? 0 = some e2 ∧ e2.IsFinished = true :=
  ⟨by decide,
   (finished_monotonic ((NewEvalState.make "wfi-1" ⟨[]⟩).Finish true ["completed"])
      (by decide)).1,
   match (finished_monotonic ((NewEvalState.make "wfi-1" ⟨[]⟩).Finish true ["completed"])
      (by decide)).2.2 { states := [("wfi-1", 0)] }
      [(NewEvalState.make "wfi-1" ⟨[]⟩).Finish true ["completed"]] 0 CacheOp.close (by decide)
      trivial rfl with
   | Or.inl hres => hres
   | Or.inr ⟨_, hcop, _⟩ => CacheOp.noConfusion hcop⟩

/-! ## `Free` -/

/-- C7: `Free` is idempotent and safe when the lock is already free. On every state that
exists, `Free()` (a non-blocking send, so it always returns) leaves exactly one element in
the lock channel of capacity one; if the channel already held an element, as on a state
fresh from `NewEvalState`, the whole state is unchanged; `Free(); Free()` is `Free()`; and
the next receive from `Lock()` succeeds. -/
theorem Free_idempotent (e : EvalState) (he : e.Reachable) (id : String)
    (spanCtx : SpanContext) :
    e.Free.evalLock.len = 1 ∧ e.Free.evalLock.cap = 1 ∧
    (e.evalLock.len = 1 → e.Free = e) ∧
    (NewEvalState.make id spanCtx).evalLock.len = 1 ∧
    (NewEvalState.make id spanCtx).Free = NewEvalState.make id spanCtx ∧
    e.Free.Free = e.Free ∧
    e.Free.Free.evalLock.len ≤ 1 ∧
    e.Free.recvLock.2 = true := by
  obtain ⟨hcap, hlen, _, _⟩ := he.inv
  have hfree : e.Free.evalLock = { cap := 1, len := 1 } := by
    simp only [EvalState.Free, Chan.trySend, hcap]
    by_cases hl : e.evalLock.len < 1
    · have h0 : e.evalLock.len = 0 := by omega
      rw [if_pos hl]
      cases hch : e.evalLock with
      | mk cap len =>
        rw [hch] at h0 hcap
        simp only at h0 hcap
        simp [h0, hcap]
    · have h1 : e.evalLock.len = 1 := by omega
      rw [if_neg hl]
      cases hch : e.evalLock with
      | mk cap len =>
        rw [hch] at h1 hcap
        simp only at h1 hcap
        simp [h1, hcap]
  have hfull : ∀ s : EvalState, s.evalLock.cap = 1 → s.evalLock.len = 1 → s.Free = s := by
    intro s hc hl
    simp [EvalState.Free, Chan.trySend, hc, hl]
  have hff : e.Free.Free = e.Free := hfull e.Free (by rw [hfree]) (by rw [hfree])
  refine ⟨by rw [hfree], by rw [hfree], hfull e hcap, by rw [NewEvalState_evalLock],
    hfull _ (by rw [NewEvalState_evalLock]) (by rw [NewEvalState_evalLock]), hff,
    by rw [hff, hfree], ?_⟩
  simp [EvalState.recvLock, EvalState.Lock, Chan.tryRecv, hfree]

/-- C7 at a concrete state: a fresh state whose lock element has been received. -/
theorem Free_idempotent_witness :
    (NewEvalState.make "wfi-1" ⟨[]⟩).recvLock.1.Free.evalLock.len = 1 ∧
    (NewEvalState.make "wfi-1" ⟨[]⟩).Free = NewEvalState.make "wfi-1" ⟨[]⟩ ∧
    (NewEvalState.make "wfi-1" ⟨[]⟩).recvLock.1.Free.recvLock.2 = true :=
  ⟨(Free_idempotent (NewEvalState.make "wfi-1" ⟨[]⟩).recvLock.1
      (EvalState.Reachable.step StateOp.recvLock (EvalState.Reachable.new "wfi-1" (some ⟨[]⟩) _ rfl))
      "wfi-1" ⟨[]⟩).1,
   (Free_idempotent (NewEvalState.make "wfi-1" ⟨[]⟩) (EvalState.Reachable.new "wfi-1" (some ⟨[]⟩) _ rfl)
      "wfi-1" ⟨[]⟩).2.2.1 (by decide),
   (Free_idempotent (NewEvalState.make "wfi-1" ⟨[]⟩).recvLock.1
      (EvalState.Reachable.step StateOp.recvLock (EvalState.Reachable.new "wfi-1" (some ⟨[]⟩) _ rfl))
      "wfi-1" ⟨[]⟩).2.2.2.2.2.2.2⟩

/-! ## Reading the log -/

theorem EvalLog.index_of_lt (e : EvalLog) (n : Nat) (hn : n < e.length) :
    e.index (n : Int) = some (e.get ⟨n, hn⟩) := by
  have h0 : ¬ ((n : Int) < 0) := by omega
  rw [EvalLog.index, if_neg h0, Int.toNat_ofNat, List.get?_eq_get hn]

theorem EvalLog.index_neg (e : EvalLog) (i : Int) (hi : i < 0) : e.index i = none := by
  rw [EvalLog.index, if_pos hi]

theorem EvalState.Get_of_lt (e : EvalState) (n : Nat) (hn : n < e.log.length) :
    e.Get (n : Int) = some (e.log.get ⟨n, hn⟩, true) := by
  have hge : ¬ ((n : Int) ≥ (e.log.length : Int)) := by omega
  rw [EvalState.Get, if_neg hge, EvalLog.index_of_lt e.log n hn]
  rfl

theorem EvalState.Get_of_ge (e : EvalState) (i : Int) (hi : i ≥ e.Count) :
    e.Get i = some (EvalRecord.zero, false) := by
  have hge : i ≥ (e.log.length : Int) := hi
  rw [EvalState.Get, if_pos hge]

theorem EvalState.Get_of_neg (e : EvalState) (i : Int) (hi : i < 0) : e.Get i = none := by
  have hge : ¬ (i ≥ (e.log.length : Int)) := by omega
  rw [EvalState.Get, if_neg hge, EvalLog.index_neg e.log i hi]
  rfl

/-- C8: `Get(-1)` on a state with one record does not return `(EvalRecord{}, false)`: the
index expression `e.log[-1]` is reached and panics. At the indices `0` and `1` of the same
state `Get` returns the record with `true` and the zero record with `false`. -/
theorem Get_negative_index :
    ((NewEvalState.make "wfi-1" ⟨[]⟩).Record (NewEvalRecord 7)).Get (-1) = none ∧
    ((NewEvalState.make "wfi-1" ⟨[]⟩).Record (NewEvalRecord 7)).Get (-1)
      ≠ some (EvalRecord.zero, false) ∧
    ((NewEvalState.make "wfi-1" ⟨[]⟩).Record (NewEvalRecord 7)).Get 0
      = some (NewEvalRecord 7, true) ∧
    ((NewEvalState.make "wfi-1" ⟨[]⟩).Record (NewEvalRecord 7)).Get 1
      = some (EvalRecord.zero, false) := by
  decide

/-- C9: `First` and `Last`. On an empty log both return the zero record and `false`. On a
non-empty log `First` returns the record at index `0` and `Last` the record at index
`Count() - 1`, both with `true`; after an append `Last` returns the appended record. The
methods of `EvalState` agree with those of its log. -/
theorem First_Last (e : EvalLog) (s : EvalState) :
    (e = [] → e.First = some (EvalRecord.zero, false) ∧ e.Last = some (EvalRecord.zero, false)) ∧
    (∀ hne : e ≠ [],
      e.First = some (e.head hne, true) ∧ e.Last = some (e.getLast hne, true) ∧
      e.get? 0 = some (e.head hne) ∧ e.get? (e.Count - 1).toNat = some (e.getLast hne)) ∧
    (∀ r, (e.Record r).Last = some (r, true)) ∧
    s.First = s.log.First ∧ s.Last = s.log.Last := by
  have hlast : ∀ (l : EvalLog) (hne : l ≠ []),
      l.Last = some (l.getLast hne, true) ∧ l.get? (l.Count - 1).toNat = some (l.getLast hne) := by
    intro l hne
    have hpos : 0 < l.length := List.length_pos.mpr hne
    have hcount : ¬ (l.Count = 0) := by unfold EvalLog.Count; omega
    have hidx : ((l.length : Int) - 1) = ((l.length - 1 : Nat) : Int) := by omega
    have hlt : l.length - 1 < l.length := by omega
    have hget : l.get ⟨l.length - 1, hlt⟩ = l.getLast hne := by
      rw [List.getLast_eq_getElem]; rfl
    refine ⟨?_, ?_⟩
    · rw [EvalLog.Last, if_neg hcount, hidx, EvalLog.index_of_lt l _ hlt, hget]; rfl
    · rw [EvalLog.Count, hidx, Int.toNat_ofNat, List.get?_eq_get hlt, hget]
  refine ⟨fun hnil => ?_, fun hne => ?_, fun r => ?_, rfl, rfl⟩
  · subst hnil; exact ⟨rfl, rfl⟩
  · have hpos : 0 < e.length := List.length_pos.mpr hne
    have hcount : ¬ (e.Count = 0) := by unfold EvalLog.Count; omega
    have hhead : e.get ⟨0, hpos⟩ = e.head hne := by
      cases e with
      | nil => exact absurd rfl hne
      | cons a t => rfl
    refine ⟨?_, (hlast e hne).1, ?_, (hlast e hne).2⟩
    · rw [EvalLog.First, if_neg hcount]
      have h0 := EvalLog.index_of_lt e 0 hpos
      simp only [Nat.cast_zero] at h0
      rw [h0, hhead]; rfl
    · rw [List.get?_eq_get hpos, hhead]
  · have hne : e.Record r ≠ [] := by simp [EvalLog.Record]
    rw [(hlast (e.Record r) hne).1]
    simp [EvalLog.Record]

/-- C9 at concrete logs: the empty log and a log of two records. -/
theorem First_Last_witness :
    (EvalLog.First [] = some (EvalRecord.zero, false) ∧
      EvalLog.Last [] = some (EvalRecord.zero, false)) ∧
    EvalLog.First [NewEvalRecord 1, NewEvalRecord 2] = some (NewEvalRecord 1, true) ∧
    EvalLog.Last [NewEvalRecord 1, NewEvalRecord 2] = some (NewEvalRecord 2, true) :=
  ⟨(First_Last [] (NewEvalState.make "wfi-1" ⟨[]⟩)).1 rfl,
   ((First_Last [NewEvalRecord 1, NewEvalRecord 2] (NewEvalState.make "wfi-1" ⟨[]⟩)).2.1
      (by decide)).1,
   ((First_Last [NewEvalRecord 1, NewEvalRecord 2] (NewEvalState.make "wfi-1" ⟨[]⟩)).2.1
      (by decide)).2.1⟩

/-! ## `Close` of a state -/

theorem strings.Join_controller_closed :
    strings.Join ["controller closed"] " " = "controller closed" := by decide

theorem strings.Join_closed : strings.Join ["closed"] " " = "closed" := by decide

/-- C11, as the claim states it, fails: on a fresh state `Close()` logs the reason
`"controller closed"` on the span, `Finish(false, "closed")` logs `"closed"`, so the two
resulting states differ. -/
theorem Close_differs_from_Finish_closed :
    (NewEvalState.make "wfi-1" ⟨[]⟩).Close.1.span.logs = [[("reason", "controller closed")]] ∧
    ((NewEvalState.make "wfi-1" ⟨[]⟩).Finish false ["closed"]).span.logs = [[("reason", "closed")]] ∧
    (NewEvalState.make "wfi-1" ⟨[]⟩).Close.1 ≠ (NewEvalState.make "wfi-1" ⟨[]⟩).Finish false ["closed"] := by
  decide

/-- C11, amended: `Close()` returns `nil` and leaves the state exactly as
`Finish(false, "controller closed")` does. Compared with `Finish(false, "closed")` the finished
flag, the tags of the span (so the `success` tag) and the number of times the span was
finished are the same; on a state already finished the two states are equal; on a state not
yet finished they differ only in the reason logged, which is `"controller closed"` after
`Close()` and `"closed"` after `Finish(false, "closed")`. -/
theorem Close_eq_Finish_controller_closed (e : EvalState) :
    e.Close.2 = none ∧
    e.Close.1 = e.Finish false ["controller closed"] ∧
    e.Close.1.IsFinished = true ∧
    e.Close.1.IsFinished = (e.Finish false ["closed"]).IsFinished ∧
    e.Close.1.span.tags = (e.Finish false ["closed"]).span.tags ∧
    e.Close.1.span.finishCalls = (e.Finish false ["closed"]).span.finishCalls ∧
    (e.IsFinished = true → e.Close.1 = e.Finish false ["closed"]) ∧
    (e.IsFinished = false →
      e.Close.1.span.tag "success" = some (TagValue.bool false) ∧
      e.Close.1.span.logs = e.span.logs ++ [[("reason", "controller closed")]] ∧
      (e.Finish false ["closed"]).span.logs = e.span.logs ++ [[("reason", "closed")]]) := by
  refine ⟨rfl, rfl, EvalState.Close_finished e, ?_, ?_, ?_, fun hf => ?_, fun hnf => ?_⟩
  · exact (EvalState.Close_finished e).trans (EvalState.Finish_finished e false ["closed"]).symm
  · by_cases hf : e.finished = true <;>
      simp [EvalState.Close, EvalState.Finish, hf, Span.Finish, Span.LogKV, Span.SetTag]
  · by_cases hf : e.finished = true <;>
      simp [EvalState.Close, EvalState.Finish, hf, Span.Finish, Span.LogKV, Span.SetTag]
  · have hf2 : e.finished = true := hf
    rw [EvalState.Finish_of_finished e false ["closed"] hf2]
    exact EvalState.Finish_of_finished e false ["controller closed"] hf2
  · have hnf2 : e.finished = false := hnf
    refine ⟨?_, ?_, ?_⟩
    · simp [EvalState.Close, EvalState.Finish, hnf2, Span.Finish, Span.LogKV, Span.SetTag,
        Span.tag]
    · simp [EvalState.Close, EvalState.Finish, hnf2, Span.Finish, Span.LogKV, Span.SetTag,
        strings.Join_controller_closed]
    · simp [EvalState.Finish, hnf2, Span.Finish, Span.LogKV, Span.SetTag, strings.Join_closed]

/-- C11, amended, at concrete states: a state finished before and a fresh one. -/
theorem Close_eq_Finish_controller_closed_witness :
    ((NewEvalState.make "wfi-1" ⟨[]⟩).Finish true ["completed"]).Close.1
      = ((NewEvalState.make "wfi-1" ⟨[]⟩).Finish true ["completed"]).Finish false ["closed"] ∧
    (NewEvalState.make "wfi-1" ⟨[]⟩).Close.1.span.logs
      = (NewEvalState.make "wfi-1" ⟨[]⟩).span.logs ++ [[("reason", "controller closed")]] :=
  ⟨(Close_eq_Finish_controller_closed
      ((NewEvalState.make "wfi-1" ⟨[]⟩).Finish true ["completed"])).2.2.2.2.2.2.1 (by decide),
   ((Close_eq_Finish_controller_closed (NewEvalState.make "wfi-1" ⟨[]⟩)).2.2.2.2.2.2.2
      (by decide)).2.1⟩

/-! ## `Del` -/

theorem Heap.applyAt_of_get (h : Heap) (a : Addr) (st : EvalState) (op : StateOp)
    (ha : h.get? a = some st) :
    h.applyAt a op = some (h.set a (st.apply op)) ∧
    (h.set a (st.apply op)).get? a = some (st.apply op) := by
  have hlt : a < h.length := by
    rw [List.get?_eq_getElem?] at ha
    exact (List.getElem?_eq_some.mp ha).1
  refine ⟨?_, ?_⟩
  · unfold Heap.applyAt
    rw [ha]
  · rw [List.get?_eq_getElem?, List.getElem?_set_self hlt]

/-- C12: `Del` is decoupled from `Finish`. `Del(id)` completes and writes only the map: the
heap, so every state, the one that was stored under `id` included, is as before (same
finished flag, same log, same lock channel). Afterwards `Get(id)` returns `(nil, false)`, the
lookup of every other id is as before, and `Del` of an absent id leaves the cache unchanged.
The state that was stored under `id` remains usable through its pointer: `Record` still
appends to its log and `Finish` still finishes it. -/
theorem Del_decoupled (c : EvalCache) (h : Heap) (id : String) :
    CacheOp.apply c h (CacheOp.del id) = some (c.Del id, h) ∧
    (c.Del id).Get id = (none, false) ∧
    (∀ id2, id2 ≠ id → (c.Del id).Get id2 = c.Get id2) ∧
    ((c.Get id).2 = false → c.Del id = c) ∧
    (∀ a st, c.Get id = (some a, true) → h.get? a = some st →
      (∀ r, ∃ h2 st2, h.applyAt a (StateOp.record r) = some h2 ∧ h2.get? a = some st2 ∧
        st2.Logs = st.Logs ++ [r] ∧ st2.IsFinished = st.IsFinished) ∧
      (∀ success msg, ∃ h2 st2, h.applyAt a (StateOp.finish success msg) = some h2 ∧
        h2.get? a = some st2 ∧ st2.IsFinished = true ∧ st2.Logs = st.Logs)) := by
  refine ⟨rfl, ?_, fun id2 hne => ?_, fun habs => ?_, fun a st _ ha => ⟨fun r => ?_, fun b m => ?_⟩⟩
  · rw [EvalCache.Get_eq, EvalCache.Del, mapLookup_mapDelete_self]; rfl
  · rw [EvalCache.Get_eq, EvalCache.Get_eq, EvalCache.Del, mapLookup_mapDelete_ne _ hne]
  · rw [EvalCache.Get_eq] at habs
    have hnone : mapLookup c.states id = none := by
      cases hl : mapLookup c.states id with
      | none => rfl
      | some a => simp [hl] at habs
    cases c with
    | mk states =>
      simp only [EvalCache.Del]
      rw [mapDelete_of_lookup_none states id hnone]
  · obtain ⟨h1, h2⟩ := Heap.applyAt_of_get h a st (StateOp.record r) ha
    refine ⟨_, _, h1, h2, ?_, rfl⟩
    rw [EvalState.Logs_eq, EvalState.Logs_eq]
    rfl
  · obtain ⟨h1, h2⟩ := Heap.applyAt_of_get h a st (StateOp.finish b m) ha
    refine ⟨_, _, h1, h2, EvalState.Finish_finished st b m, ?_⟩
    rw [EvalState.Logs_eq, EvalState.Logs_eq, EvalState.apply_log]
    simp [StateOp.records]

/-- C12 at concrete caches: one that holds an unfinished state under `"wfi-1"`, and a fresh
one. -/
theorem Del_decoupled_witness :
    NewEvalCache.Del "wfi-1" = NewEvalCache ∧
    ∃ h2 st2, Heap.applyAt [NewEvalState.make "wfi-1" ⟨[]⟩] 0 (StateOp.record (NewEvalRecord 7))
        = some h2 ∧ h2.get? 0 = some st2 ∧
      st2.Logs = (NewEvalState.make "wfi-1" ⟨[]⟩).Logs ++ [NewEvalRecord 7] ∧
      st2.IsFinished = (NewEvalState.make "wfi-1" ⟨[]⟩).IsFinished :=
  ⟨(Del_decoupled NewEvalCache [] "wfi-1").2.2.2.1 (by decide),
   ((Del_decoupled { states := [("wfi-1", 0)] } [NewEvalState.make "wfi-1" ⟨[]⟩] "wfi-1").2.2.2.2
      0 (NewEvalState.make "wfi-1" ⟨[]⟩) (by decide) rfl).1 (NewEvalRecord 7)⟩

/-! ## `Free` by a caller that does not hold -/

theorem LockSys.Step.exec_eq {N : Nat} {sys sys2 : LockSys} (hs : LockSys.Step N sys sys2) :
    ∃ ev, sys.exec ev = sys2 := by
  cases hs with
  | acquire w hw hrecv => exact ⟨LockEvent.recv w, by simp [LockSys.exec, hrecv]⟩
  | release w hw hheld => exact ⟨LockEvent.free w, rfl⟩

/-- C13: `Free` does not check its caller. From a state fresh from `NewEvalState`, worker `0`
receives from `Lock()`; worker `2`, which does not hold, calls `Free()`, which refills the
channel; worker `1` receives from `Lock()`. Both receives succeed and neither worker has
released, so two workers hold the lock element at once. -/
theorem Free_by_non_holder (id : String) (spanCtx : SpanContext) :
    (LockSys.execAll { st := NewEvalState.make id spanCtx, holders := [] }
      [LockEvent.recv 0]).holders = [0] ∧
    (LockSys.execAll { st := NewEvalState.make id spanCtx, holders := [] }
      [LockEvent.recv 0]).st.evalLock.len = 0 ∧
    2 ∉ (LockSys.execAll { st := NewEvalState.make id spanCtx, holders := [] }
      [LockEvent.recv 0]).holders ∧
    (LockSys.execAll { st := NewEvalState.make id spanCtx, holders := [] }
      [LockEvent.recv 0, LockEvent.free 2]).st.evalLock.len = 1 ∧
    (LockSys.execAll { st := NewEvalState.make id spanCtx, holders := [] }
      [LockEvent.recv 0, LockEvent.free 2]).st.recvLock.2 = true ∧
    (LockSys.execAll { st := NewEvalState.make id spanCtx, holders := [] }
      [LockEvent.recv 0, LockEvent.free 2, LockEvent.recv 1]).holders = [1, 0] ∧
    ¬ ((LockSys.execAll { st := NewEvalState.make id spanCtx, holders := [] }
      [LockEvent.recv 0, LockEvent.free 2, LockEvent.recv 1]).holders.length ≤ 1) := by
  refine ⟨rfl, rfl, ?_, rfl, rfl, rfl, ?_⟩
  · have hh : (LockSys.execAll { st := NewEvalState.make id spanCtx, holders := [] }
        [LockEvent.recv 0]).holders = [0] := rfl
    rw [hh]; decide
  · have hh : (LockSys.execAll { st := NewEvalState.make id spanCtx, holders := [] }
        [LockEvent.recv 0, LockEvent.free 2, LockEvent.recv 1]).holders = [1, 0] := rfl
    rw [hh]; decide

end Controller
